import Mathlib

/-!
BeeClock logical time kernel — formal verification.

Shallow embedding of the BeeClock logical time kernel (Rust core, as it
appears in the repository sources) together with theorems settling the
frozen specification claims.

Machine integers: the Rust core uses `u64` counters with explicitly
wrapping arithmetic (`overflowing_add` / `wrapping_add`).  We embed them
as `Nat` with explicit `% 2^64` at the points where the source wraps.
-/

namespace BeeClock

/-- The constant `2^64`, modulus of the Rust `u64` counters. -/
def U64 : Nat := 2 ^ 64

/-! ## Data model (from `PartitionState`, `PulseCondition`, `ClockSnapshot`,
`PulseFired`, `TickOutcome`, `PartitionOrder`, `PulseSpec`, `Clock`) -/

/-- Runtime state of one mixed-radix partition (Rust `PartitionState`:
`name: String, value: u64, modulus: u64`). -/
structure PartitionState where
  name : String
  value : Nat
  modulus : Nat
  deriving Repr, DecidableEq

/-- Cascade direction (Rust `PartitionOrder`). -/
inductive PartitionOrder where
  | LeastSignificantFirst
  | MostSignificantFirst
  deriving Repr, DecidableEq

/-- Pulse predicate algebra (Rust `enum PulseCondition`). -/
inductive PulseCondition where
  | Every (period : Nat)
  | PartitionEquals (name : String) (value : Nat)
  | PartitionModulo (name : String) (modulus : Nat) (remainder : Nat)
  | TickRange (start : Nat) (end_ : Nat)
  | Not (c : PulseCondition)
  | And (cs : List PulseCondition)
  | Or (cs : List PulseCondition)
  deriving Repr

/-- Immutable snapshot of clock state (Rust `ClockSnapshot`). -/
structure ClockSnapshot where
  tick : Nat
  epoch : Nat
  partitions : List PartitionState
  deriving Repr, DecidableEq

/-- Rust `ClockSnapshot::partition`: look a partition up by name. -/
def ClockSnapshot.partition (s : ClockSnapshot) (name : String) :
    Option PartitionState :=
  s.partitions.find? (fun p => p.name == name)

/-- Record of one fired pulse (Rust `PulseFired`). -/
structure PulseFired where
  name : String
  tick : Nat
  epoch : Nat
  deriving Repr, DecidableEq

/-- A registered pulse (Rust `PulseSpec`). -/
structure PulseSpec where
  name : String
  condition : PulseCondition

/-- Result of one `tick()` (Rust `TickOutcome`). -/
structure TickOutcome where
  snapshot : ClockSnapshot
  pulses : List PulseFired
  overflowed : Bool

/-! ## Condition evaluation (`PulseCondition::is_met`)

The Rust evaluator uses `cs.iter().all(...)` / `cs.iter().any(...)` on the
child vectors of `And` / `Or`; `all_met` / `any_met` are those folds, split
out so the recursion is structural. -/

mutual

/-- Rust `PulseCondition::is_met`, translated clause by clause. -/
def is_met : PulseCondition → Nat → ClockSnapshot → Bool
  | .Every period, tick, _ => tick != 0 && tick % period == 0
  | .PartitionEquals name value, _, snapshot =>
      ((snapshot.partition name).map (fun p => p.value == value)).getD false
  | .PartitionModulo name modulus remainder, _, snapshot =>
      ((snapshot.partition name).map
        (fun p => modulus != 0 && p.value % modulus == remainder)).getD false
  | .TickRange start end_, tick, _ =>
      decide (start ≤ tick) && decide (tick ≤ end_)
  | .Not c, tick, snapshot => !(is_met c tick snapshot)
  | .And cs, tick, snapshot => !(cs.isEmpty) && all_met cs tick snapshot
  | .Or cs, tick, snapshot => any_met cs tick snapshot

/-- The fold `cs.iter().all(|c| c.is_met(tick, snapshot))`. -/
def all_met : List PulseCondition → Nat → ClockSnapshot → Bool
  | [], _, _ => true
  | c :: cs, tick, snapshot => is_met c tick snapshot && all_met cs tick snapshot

/-- The fold `cs.iter().any(|c| c.is_met(tick, snapshot))`. -/
def any_met : List PulseCondition → Nat → ClockSnapshot → Bool
  | [], _, _ => false
  | c :: cs, tick, snapshot => is_met c tick snapshot || any_met cs tick snapshot

end

/-! ## Clock core (`Clock`, `PartitionState::increment`,
`Clock::advance_partitions`, `Clock::tick`) -/

/-- The clock aggregate (Rust `struct Clock`; the `std`-only subscriber list
is outside this embedding). -/
structure Clock where
  tick : Nat
  epoch : Nat
  partitions : List PartitionState
  partition_order : PartitionOrder
  pulses : List PulseSpec

/-- Rust `PartitionState::increment`: add one; on reaching the modulus, reset to
`0` and report a carry. -/
def PartitionState.increment (p : PartitionState) : PartitionState × Bool :=
  let value := p.value + 1
  if p.modulus ≤ value then ({ p with value := 0 }, true)
  else ({ p with value := value }, false)

/-- The carry loop of `Clock::advance_partitions`: visit partitions from the
front; each visited partition increments; the first one that does not carry
stops the cascade. -/
def cascade : List PartitionState → List PartitionState
  | [] => []
  | p :: rest =>
      match p.increment with
      | (p', true) => p' :: cascade rest
      | (p', false) => p' :: rest

/-- Rust `Clock::advance_partitions`: under `LeastSignificantFirst` the loop runs
front to back; under `MostSignificantFirst` it runs over
`iter_mut().rev()`, i.e. the cascade is applied to the reversed list. -/
def advance_partitions (order : PartitionOrder) (ps : List PartitionState) :
    List PartitionState :=
  match order with
  | .LeastSignificantFirst => cascade ps
  | .MostSignificantFirst => (cascade ps.reverse).reverse

/-- Rust `Clock::snapshot`: copy out tick, epoch and partition states. -/
def Clock.snapshot (c : Clock) : ClockSnapshot :=
  ⟨c.tick, c.epoch, c.partitions⟩

/-- The user-pulse evaluation loop inside `Clock::tick`: collect a
`PulseFired` for every registered pulse whose condition is met, in
registration order. -/
def fired_pulses (c : Clock) : List PulseFired :=
  c.pulses.filterMap fun pulse =>
    if is_met pulse.condition c.tick c.snapshot then
      some ⟨pulse.name, c.tick, c.epoch⟩
    else none

/-- Rust `Clock::tick`: advance the tick counter with wraparound
(`overflowing_add`), bump the epoch on overflow (`wrapping_add`), cascade
the partitions, snapshot, evaluate pulses, then append the reserved
`"__overflow__"` pulse if the counter wrapped. -/
def tick (c : Clock) : Clock × TickOutcome :=
  let overflowed : Bool := decide (U64 ≤ c.tick + 1)
  let next_tick := (c.tick + 1) % U64
  let next_epoch := if overflowed then (c.epoch + 1) % U64 else c.epoch
  let c' : Clock :=
    { c with
      tick := next_tick
      epoch := next_epoch
      partitions := advance_partitions c.partition_order c.partitions }
  let snapshot := c'.snapshot
  let user_fired := fired_pulses c'
  let fired :=
    if overflowed then user_fired ++ [⟨"__overflow__", c'.tick, c'.epoch⟩]
    else user_fired
  (c', ⟨snapshot, fired, overflowed⟩)

/-- Iterated stepping: `tick()` applied `n` times, keeping the clock state. -/
def tickN (c : Clock) : Nat → Clock
  | 0 => c
  | n + 1 => (tick (tickN c n)).1

/-- Rust `Clock::tick_count` accessor. -/
def tick_count (c : Clock) : Nat := c.tick

/-- Rust `Clock::epoch` accessor. -/
def epoch (c : Clock) : Nat := c.epoch

/-- Rust `ClockSnapshot::get`: partition value by name, `0` when absent. -/
def ClockSnapshot.get (s : ClockSnapshot) (name : String) : Nat :=
  ((s.partition name).map (fun p => p.value)).getD 0

/-! ## Errors and construction-time validation (`ClockError`,
`validate_condition`) -/

/-- Construction-time failure reasons, exactly the variants declared by the
source `enum ClockError`. -/
inductive ClockError where
  | ZeroModulus (name : String)
  | ZeroPeriod (name : String)
  | ZeroConditionModulus (pulse : String) (partition : String)
  | UnknownPartition (pulse : String) (partition : String)
  | InvalidTickRange (pulse : String) (start : Nat) (end_ : Nat)
  | MissingPartitionOrder
  deriving Repr, DecidableEq

/-- Name of the Rust enum variant a `ClockError` value was built with. -/
def ClockError.tag : ClockError → String
  | .ZeroModulus _ => "ZeroModulus"
  | .ZeroPeriod _ => "ZeroPeriod"
  | .ZeroConditionModulus _ _ => "ZeroConditionModulus"
  | .UnknownPartition _ _ => "UnknownPartition"
  | .InvalidTickRange _ _ _ => "InvalidTickRange"
  | .MissingPartitionOrder => "MissingPartitionOrder"

mutual

/-- Rust `validate_condition`, translated arm by arm; the Rust `match` arms
apply in order, so for `PartitionModulo` the unknown-partition guard runs
before the zero-modulus check. -/
def validate_condition (condition : PulseCondition) (partitions : List String)
    (pulse_name : String) : Except ClockError Unit :=
  match condition with
  | .Every period =>
      if period = 0 then .error (.ZeroPeriod pulse_name) else .ok ()
  | .PartitionEquals name _ =>
      if partitions.contains name then .ok ()
      else .error (.UnknownPartition pulse_name name)
  | .PartitionModulo name modulus _ =>
      if partitions.contains name then
        if modulus = 0 then .error (.ZeroConditionModulus pulse_name name)
        else .ok ()
      else .error (.UnknownPartition pulse_name name)
  | .TickRange start end_ =>
      if end_ < start then .error (.InvalidTickRange pulse_name start end_)
      else .ok ()
  | .Not inner => validate_condition inner partitions pulse_name
  | .And cs => validate_condition_list cs partitions pulse_name
  | .Or cs => validate_condition_list cs partitions pulse_name

/-- The `for c in cs { validate_condition(c, ..)?; }` loop of the `And`/`Or`
arms: stop at the first error. -/
def validate_condition_list (cs : List PulseCondition) (partitions : List String)
    (pulse_name : String) : Except ClockError Unit :=
  match cs with
  | [] => .ok ()
  | c :: rest =>
      match validate_condition c partitions pulse_name with
      | .error e => .error e
      | .ok _ => validate_condition_list rest partitions pulse_name

end

/-- A partition registration accumulated by the builder (Rust
`PartitionSpec`: name and modulus). -/
structure PartitionSpec where
  name : String
  modulus : Nat
  deriving Repr, DecidableEq

/-- The pulse-validation loop of `build()`: validate every pulse's condition
tree in registration order, stopping at the first error.  Modelled from the
spec (step 4 of the build order); the loop body `validate_condition` is the
source function above. -/
def validate_pulses (pulses : List PulseSpec) (partitions : List String) :
    Except ClockError Unit :=
  match pulses with
  | [] => .ok ()
  | pu :: rest =>
      match validate_condition pu.condition partitions pu.name with
      | .error e => .error e
      | .ok _ => validate_pulses rest partitions

/-- Modelled from the spec: `ClockBuilder::build` — the body of `build()` in
`beeclock-core` is not under `src/` (the source shows only its signature).
Following the spec's build order it (2) rejects any `modulus == 0` with
`ZeroModulus` at the first offender, (3) requires an explicit order whenever
at least one partition is registered (`MissingPartitionOrder`), and (4)
validates every pulse condition via the source function
`validate_condition`; on success it freezes the configuration with all
counters and partition values at `0`.  The spec's duplicate-name steps
(1) and (5) are omitted here because the `ClockError` enumeration declared
in the source has no `DuplicatePartitionName` / `DuplicatePulseName`
variants to return. -/
def build (parts : List PartitionSpec) (pulses : List PulseSpec)
    (order : Option PartitionOrder) : Except ClockError Clock :=
  match parts.find? (fun p => p.modulus == 0) with
  | some p => .error (.ZeroModulus p.name)
  | none =>
    if !parts.isEmpty && order.isNone then .error .MissingPartitionOrder
    else
      match validate_pulses pulses (parts.map (fun p => p.name)) with
      | .error e => .error e
      | .ok _ =>
          .ok
            { tick := 0
              epoch := 0
              partitions :=
                parts.map (fun p => { name := p.name, value := 0, modulus := p.modulus })
              partition_order := order.getD .LeastSignificantFirst
              pulses := pulses }

mutual

/-- Spec-side validity predicate for a condition tree, following the words
of the spec: every referenced partition name exists, every `Every` period
and `PartitionModulo` modulus is nonzero, every `TickRange` has
`start <= end`, recursing through `Not`/`And`/`Or`.  Used to state the
build-success characterization; compare with `validate_condition`. -/
def CondOK : PulseCondition → List String → Prop
  | .Every period, _ => period ≠ 0
  | .PartitionEquals name _, names => name ∈ names
  | .PartitionModulo name modulus _, names => name ∈ names ∧ modulus ≠ 0
  | .TickRange start end_, _ => start ≤ end_
  | .Not c, names => CondOK c names
  | .And cs, names => CondListOK cs names
  | .Or cs, names => CondListOK cs names

/-- Spec-side validity of a list of child conditions. -/
def CondListOK : List PulseCondition → List String → Prop
  | [], _ => True
  | c :: cs, names => CondOK c names ∧ CondListOK cs names

end

/-! ## Host-bridge condition literals (`parse_condition`)

A well-formed tagged-object literal of the bridge grammar, one constructor
per `type` discriminator of the spec's literal grammar.  A `CondLit` value
stands for an object whose discriminator is the constructor's name and
whose fields are present with the right types; field-extraction failures
(`get_u64` etc.) are outside this embedding. -/
inductive CondLit where
  | every (period : Nat)
  | partition_equals (name : String) (value : Nat)
  | partition_modulo (name : String) (modulus : Nat) (remainder : Nat)
  | tick_range (start : Nat) (end_ : Nat)
  | not (condition : CondLit)
  | and (conditions : List CondLit)
  | or (conditions : List CondLit)
  deriving Repr

mutual

/-- Rust `parse_condition` from the source, translated arm by arm: the
`match kind.as_str()` there handles exactly the discriminators `"every"`,
`"partition_equals"`, `"and"`, `"or"` and `"not"`, and every other
discriminator — including `"partition_modulo"` and `"tick_range"` — falls
into the catch-all arm `_ => Err("unknown condition type".into())`. -/
def parse_condition : CondLit → Except String PulseCondition
  | .every period => .ok (.Every period)
  | .partition_equals name value => .ok (.PartitionEquals name value)
  | .and conditions =>
      match parse_condition_list conditions with
      | .ok cs => .ok (.And cs)
      | .error e => .error e
  | .or conditions =>
      match parse_condition_list conditions with
      | .ok cs => .ok (.Or cs)
      | .error e => .error e
  | .not condition =>
      match parse_condition condition with
      | .ok c => .ok (.Not c)
      | .error e => .error e
  | _ => .error "unknown condition type"

/-- Parsing of the `conditions` array of an `and` / `or` literal
(`get_conditions` in the source): parse each child, stopping at the first
error. -/
def parse_condition_list : List CondLit → Except String (List PulseCondition)
  | [] => .ok []
  | c :: rest =>
      match parse_condition c with
      | .error e => .error e
      | .ok c' =>
          match parse_condition_list rest with
          | .error e => .error e
          | .ok cs' => .ok (c' :: cs')

end

/-! ## Zero-copy raw-buffer fast path

The implementations of `snapshot_raw`, `tick_raw` and
`partition_moduli_raw` live in the `beeclock-wasm` crate, which is not
under `src/`; the models below follow the spec's zero-copy buffer layout
(also documented in the repository's WASM demo README). -/

/-- Low 32-bit word of a `u64` value. -/
def lo32 (x : Nat) : Nat := x % 2 ^ 32

/-- High 32-bit word of a `u64` value. -/
def hi32 (x : Nat) : Nat := x / 2 ^ 32 % 2 ^ 32

/-- Reassemble a `u64` from its (low, high) 32-bit words. -/
def decode_u64 (lo hi : Nat) : Nat := lo + 2 ^ 32 * hi

/-- Decode a flat word buffer as a sequence of (low, high) pairs. -/
def decode_words : List Nat → List Nat
  | lo :: hi :: rest => decode_u64 lo hi :: decode_words rest
  | _ => []

/-- Modelled from the spec: the `WasmClock` wrapper (in `beeclock-wasm`,
not under `src/`) owns the core clock and remembers whether the most
recent tick overflowed, which is what the `overflowed` word of
`snapshot_raw` reports. -/
structure WasmClock where
  clock : Clock
  last_overflowed : Bool

/-- Modelled from the spec: `snapshot_raw` writes the fixed word order
`[tick_lo, tick_hi, epoch_lo, epoch_hi, overflowed, partition_count,
p0_lo, p0_hi, p1_lo, p1_hi, ...]`. -/
def snapshot_raw (w : WasmClock) : List Nat :=
  [lo32 w.clock.tick, hi32 w.clock.tick,
   lo32 w.clock.epoch, hi32 w.clock.epoch,
   if w.last_overflowed then 1 else 0,
   w.clock.partitions.length] ++
  w.clock.partitions.flatMap (fun p => [lo32 p.value, hi32 p.value])

/-- Modelled from the spec: the fired-pulse bitset written by `tick_raw`,
one bit per registered pulse in registration order, followed by the one
reserved bit for the overflow pulse. -/
def pulse_bits (c : Clock) (overflowed : Bool) : List Bool :=
  c.pulses.map (fun pulse => is_met pulse.condition c.tick c.snapshot) ++
    [overflowed]

/-- Modelled from the spec: `tick_raw` advances the clock by one step and
fills the snapshot buffer and the pulse bitset. -/
def tick_raw (w : WasmClock) : WasmClock × List Nat × List Bool :=
  let step := tick w.clock
  let w' : WasmClock := ⟨step.1, step.2.overflowed⟩
  (w', snapshot_raw w', pulse_bits step.1 step.2.overflowed)

/-- Modelled from the spec: `partition_moduli_raw` writes each modulus as a
(low, high) word pair in partition order. -/
def partition_moduli_raw (w : WasmClock) : List Nat :=
  w.clock.partitions.flatMap (fun p => [lo32 p.modulus, hi32 p.modulus])

/-- Iterated raw stepping, keeping the wrapper state. -/
def tickRawN (w : WasmClock) : Nat → WasmClock
  | 0 => w
  | n + 1 => (tick_raw (tickRawN w n)).1

/-! ## Helper lemmas on the evaluator -/

theorem all_met_iff (cs : List PulseCondition) (t : Nat) (s : ClockSnapshot) :
    all_met cs t s = true ↔ ∀ c ∈ cs, is_met c t s = true := by
  induction cs with
  | nil => simp [all_met]
  | cons c rest ih => simp [all_met, ih]

theorem any_met_iff (cs : List PulseCondition) (t : Nat) (s : ClockSnapshot) :
    any_met cs t s = true ↔ ∃ c ∈ cs, is_met c t s = true := by
  induction cs with
  | nil => simp [any_met]
  | cons c rest ih => simp [any_met, ih]

/-! ## C4 — `Every` semantics -/

/-- C4: for a nonzero period (the only kind a successful build registers),
an `Every(period)` condition is met at tick `t` iff `t` is a positive
multiple of the period — equivalently `t != 0 and t % period == 0`; in
particular it is never met at tick `0`, and with period `1` it is met at
tick `1`. -/
theorem every_fires_iff_multiple (period t : Nat) (s : ClockSnapshot)
    (hpos : 0 < period) :
    (is_met (.Every period) t s = true ↔ ∃ k, 0 < k ∧ t = k * period) ∧
    is_met (.Every period) 0 s = false ∧
    is_met (.Every 1) 1 s = true := by
  refine ⟨?_, by simp [is_met], by simp [is_met]⟩
  simp only [is_met, Bool.and_eq_true, bne_iff_ne, ne_eq, beq_iff_eq]
  constructor
  · rintro ⟨ht, hmod⟩
    obtain ⟨k, hk⟩ := Nat.dvd_of_mod_eq_zero hmod
    refine ⟨k, ?_, by rw [hk, Nat.mul_comm]⟩
    rcases Nat.eq_zero_or_pos k with rfl | hk0
    · exact absurd (by simpa using hk) ht
    · exact hk0
  · rintro ⟨k, hk0, rfl⟩
    exact ⟨by positivity, Nat.mul_mod_left k period⟩

/-- C4 witness: period `3` at tick `6` with an empty snapshot. -/
theorem every_fires_iff_multiple_witness :
    (is_met (.Every 3) 6 ⟨0, 0, []⟩ = true ↔ ∃ k, 0 < k ∧ 6 = k * 3) ∧
    is_met (.Every 3) 0 ⟨0, 0, []⟩ = false ∧
    is_met (.Every 1) 1 ⟨0, 0, []⟩ = true :=
  every_fires_iff_multiple 3 6 ⟨0, 0, []⟩ (by decide)

/-! ## C5 — `And` / `Or` semantics -/

/-- C5: an `And` over the empty list and an `Or` over the empty list both
evaluate to `false` at every tick and snapshot; an `And` is met iff its
list is non-empty and every child is met, and an `Or` is met iff some
child is met. -/
theorem and_or_semantics (cs : List PulseCondition) (t : Nat)
    (s : ClockSnapshot) :
    is_met (.And []) t s = false ∧
    is_met (.Or []) t s = false ∧
    (is_met (.And cs) t s = true ↔ cs ≠ [] ∧ ∀ c ∈ cs, is_met c t s = true) ∧
    (is_met (.Or cs) t s = true ↔ ∃ c ∈ cs, is_met c t s = true) := by
  refine ⟨by simp [is_met, all_met], by simp [is_met, any_met], ?_, ?_⟩
  · simp [is_met, all_met_iff, List.isEmpty_iff]
  · simp [is_met, any_met_iff]

/-! ## C10 — evaluation defaults and the divide-by-zero panic path

The total evaluator `is_met` above embeds every Rust arm except one edge:
Rust's `tick % period` panics when `period = 0`, while `Nat` division
makes `tick % 0 = tick`.  The evaluator below keeps that panic path
explicit so the totality claim can be judged against the source. -/

mutual

/-- Rust `PulseCondition::is_met` with the panic path made explicit:
`none` models the Rust panic "attempt to calculate the remainder with a
divisor of zero", which the `Every(period)` arm hits when `period = 0`
and the short-circuiting `tick != 0 &&` guard has not already produced
`false`.  Every other arm is panic-free — in particular
`PartitionModulo` checks its `modulus != 0` guard before dividing.
`some b` means the Rust evaluator returns `b`. -/
def is_met_checked : PulseCondition → Nat → ClockSnapshot → Option Bool
  | .Every period, tick, _ =>
      if tick != 0 then
        if period = 0 then none
        else some (tick % period == 0)
      else some false
  | .PartitionEquals name value, _, snapshot =>
      some (((snapshot.partition name).map (fun p => p.value == value)).getD false)
  | .PartitionModulo name modulus remainder, _, snapshot =>
      some (((snapshot.partition name).map
        (fun p => modulus != 0 && p.value % modulus == remainder)).getD false)
  | .TickRange start end_, tick, _ =>
      some (decide (start ≤ tick) && decide (tick ≤ end_))
  | .Not c, tick, snapshot => (is_met_checked c tick snapshot).map (fun b => !b)
  | .And cs, tick, snapshot =>
      if cs.isEmpty then some false else all_met_checked cs tick snapshot
  | .Or cs, tick, snapshot => any_met_checked cs tick snapshot

/-- Short-circuiting `all` fold with panic propagation: a child returning
`false` stops evaluation before any later child can panic. -/
def all_met_checked : List PulseCondition → Nat → ClockSnapshot → Option Bool
  | [], _, _ => some true
  | c :: cs, tick, snapshot =>
      match is_met_checked c tick snapshot with
      | none => none
      | some false => some false
      | some true => all_met_checked cs tick snapshot

/-- Short-circuiting `any` fold with panic propagation. -/
def any_met_checked : List PulseCondition → Nat → ClockSnapshot → Option Bool
  | [], _, _ => some false
  | c :: cs, tick, snapshot =>
      match is_met_checked c tick snapshot with
      | none => none
      | some true => some true
      | some false => any_met_checked cs tick snapshot

end

/-- C10 counterexample: evaluation is not total on every tree the builder
would have rejected — an `Every(0)` condition evaluated at tick `1`
reaches `tick % 0` in the source (the `tick != 0 &&` guard only shields
tick `0`), which panics in Rust, modelled here as `none`. -/
theorem every_zero_period_traps :
    is_met_checked (.Every 0) 1 ⟨0, 0, []⟩ = none := rfl

mutual

theorem is_met_checked_eq_of_valid (c : PulseCondition) (names : List String)
    (pn : String) (t : Nat) (s : ClockSnapshot)
    (h : validate_condition c names pn = .ok ()) :
    is_met_checked c t s = some (is_met c t s) := by
  cases c with
  | Every period =>
      have hper : period ≠ 0 := by
        simp only [validate_condition] at h
        split at h <;> simp_all
      simp only [is_met_checked, is_met]
      by_cases ht : t = 0
      · simp [ht]
      · simp [ht, hper]
  | PartitionEquals name v => rfl
  | PartitionModulo name m r => rfl
  | TickRange a b => rfl
  | Not inner =>
      have h' : validate_condition inner names pn = .ok () := h
      simp only [is_met_checked, is_met]
      rw [is_met_checked_eq_of_valid inner names pn t s h']
      rfl
  | And cs =>
      have h' : validate_condition_list cs names pn = .ok () := h
      simp only [is_met_checked, is_met]
      by_cases he : cs.isEmpty
      · simp [he]
      · rw [if_neg he, all_met_checked_eq_of_valid cs names pn t s h']
        simp [he]
  | Or cs =>
      have h' : validate_condition_list cs names pn = .ok () := h
      simp only [is_met_checked, is_met]
      exact any_met_checked_eq_of_valid cs names pn t s h'

theorem all_met_checked_eq_of_valid (cs : List PulseCondition)
    (names : List String) (pn : String) (t : Nat) (s : ClockSnapshot)
    (h : validate_condition_list cs names pn = .ok ()) :
    all_met_checked cs t s = some (all_met cs t s) := by
  cases cs with
  | nil => rfl
  | cons c rest =>
      have hc : validate_condition c names pn = .ok () ∧
          validate_condition_list rest names pn = .ok () := by
        simp only [validate_condition_list] at h
        rcases hv : validate_condition c names pn with e | u
        · rw [hv] at h
          simp at h
        · cases u
          rw [hv] at h
          exact ⟨rfl, h⟩
      simp only [all_met_checked, all_met]
      rw [is_met_checked_eq_of_valid c names pn t s hc.1]
      cases hm : is_met c t s
      · simp
      · rw [show (match some true with
            | none => (none : Option Bool)
            | some false => some false
            | some true => all_met_checked rest t s) =
            all_met_checked rest t s from rfl,
          all_met_checked_eq_of_valid rest names pn t s hc.2]
        simp

theorem any_met_checked_eq_of_valid (cs : List PulseCondition)
    (names : List String) (pn : String) (t : Nat) (s : ClockSnapshot)
    (h : validate_condition_list cs names pn = .ok ()) :
    any_met_checked cs t s = some (any_met cs t s) := by
  cases cs with
  | nil => rfl
  | cons c rest =>
      have hc : validate_condition c names pn = .ok () ∧
          validate_condition_list rest names pn = .ok () := by
        simp only [validate_condition_list] at h
        rcases hv : validate_condition c names pn with e | u
        · rw [hv] at h
          simp at h
        · cases u
          rw [hv] at h
          exact ⟨rfl, h⟩
      simp only [any_met_checked, any_met]
      rw [is_met_checked_eq_of_valid c names pn t s hc.1]
      cases hm : is_met c t s
      · rw [show (match some false with
            | none => (none : Option Bool)
            | some true => some true
            | some false => any_met_checked rest t s) =
            any_met_checked rest t s from rfl,
          any_met_checked_eq_of_valid rest names pn t s hc.2]
        simp
      · simp

end

/-- C10 (amended): the partition-related defensive defaults hold without
reaching any division — a `PartitionModulo` with modulus `0` evaluates to
`some false` because the nonzero guard is checked before dividing, and a
`PartitionModulo` or `PartitionEquals` naming a partition absent from the
snapshot evaluates to `some false` — and on every condition tree that
passes build-time validation the evaluator never traps and agrees with
the total evaluator `is_met`; totality does not extend to every
builder-rejected tree, since `Every(0)` at a nonzero tick divides by
zero. -/
theorem condition_eval_defaults_and_validated_total (t : Nat)
    (s : ClockSnapshot) (name pn : String) (names : List String)
    (m r v : Nat) (c : PulseCondition) :
    is_met_checked (.PartitionModulo name 0 r) t s = some false ∧
    (s.partition name = none →
      is_met_checked (.PartitionModulo name m r) t s = some false) ∧
    (s.partition name = none →
      is_met_checked (.PartitionEquals name v) t s = some false) ∧
    (validate_condition c names pn = .ok () →
      is_met_checked c t s = some (is_met c t s)) := by
  refine ⟨?_, fun h => ?_, fun h => ?_,
    fun h => is_met_checked_eq_of_valid c names pn t s h⟩
  · simp only [is_met_checked]
    cases s.partition name <;> simp
  · simp [is_met_checked, h]
  · simp [is_met_checked, h]

/-- C10 witness: tick `5`, the empty snapshot, the absent partition name
`"x"`, and the builder-validated tree `Every(2)`. -/
theorem condition_eval_defaults_and_validated_total_witness :
    is_met_checked (.PartitionModulo "x" 0 0) 5 ⟨0, 0, []⟩ = some false ∧
    is_met_checked (.PartitionModulo "x" 7 0) 5 ⟨0, 0, []⟩ = some false ∧
    is_met_checked (.PartitionEquals "x" 0) 5 ⟨0, 0, []⟩ = some false ∧
    is_met_checked (.Every 2) 5 ⟨0, 0, []⟩ =
      some (is_met (.Every 2) 5 ⟨0, 0, []⟩) :=
  ⟨(condition_eval_defaults_and_validated_total 5 ⟨0, 0, []⟩ "x" "p" [] 0 0 0
      (.Every 2)).1,
   (condition_eval_defaults_and_validated_total 5 ⟨0, 0, []⟩ "x" "p" [] 7 0 0
      (.Every 2)).2.1 rfl,
   (condition_eval_defaults_and_validated_total 5 ⟨0, 0, []⟩ "x" "p" [] 0 0 0
      (.Every 2)).2.2.1 rfl,
   (condition_eval_defaults_and_validated_total 5 ⟨0, 0, []⟩ "x" "p" [] 0 0 0
      (.Every 2)).2.2.2 rfl⟩

/-! ## Build characterization helper -/

/-- A successful `build` freezes exactly the accumulated configuration,
with both counters and every partition value at `0`. -/
theorem build_ok_spec (parts : List PartitionSpec) (pulses : List PulseSpec)
    (order : Option PartitionOrder) (c : Clock)
    (h : build parts pulses order = .ok c) :
    c = { tick := 0
          epoch := 0
          partitions := parts.map (fun p => ⟨p.name, 0, p.modulus⟩)
          partition_order := order.getD .LeastSignificantFirst
          pulses := pulses } := by
  unfold build at h
  split at h
  · simp at h
  · split at h
    · simp at h
    · split at h
      · simp at h
      · injection h with h
        exact h.symm

/-! ## C3 — overflow step -/

/-- C3: on a clock whose tick counter holds the `u64` maximum, one `tick()`
wraps the counter to `0`, bumps the epoch by one (with the epoch's own
defined wraparound), reports `overflowed = true`, and appends the single
reserved `"__overflow__"` pulse after all user pulses; on a tick that does
not wrap, `overflowed = false`, the epoch is unchanged and no overflow
pulse is appended. -/
theorem tick_overflow_spec (c : Clock) :
    (c.tick = U64 - 1 →
      (tick c).1.tick = 0 ∧
      (tick c).1.epoch = (c.epoch + 1) % U64 ∧
      (tick c).2.overflowed = true ∧
      (tick c).2.pulses =
        fired_pulses (tick c).1 ++ [⟨"__overflow__", 0, (c.epoch + 1) % U64⟩]) ∧
    (c.tick + 1 < U64 →
      (tick c).2.overflowed = false ∧
      (tick c).1.epoch = c.epoch ∧
      (tick c).2.pulses = fired_pulses (tick c).1) := by
  constructor
  · intro h
    have h1 : c.tick + 1 = U64 := by
      have hpos : 0 < U64 := by norm_num [U64]
      omega
    simp [tick, h1]
  · intro h
    simp [tick, Nat.not_le.mpr h]

/-- Clock with the tick counter at the `u64` maximum, used as the overflow
witness. -/
def maxTickClock : Clock := ⟨U64 - 1, 0, [], .LeastSignificantFirst, []⟩

/-- Freshly built empty clock, used as the non-overflow witness. -/
def zeroClock : Clock := ⟨0, 0, [], .LeastSignificantFirst, []⟩

/-- C3 witness: the overflow case at tick `2^64 - 1` and the ordinary case
at tick `0`. -/
theorem tick_overflow_spec_witness :
    ((tick maxTickClock).1.tick = 0 ∧
      (tick maxTickClock).1.epoch = (0 + 1) % U64 ∧
      (tick maxTickClock).2.overflowed = true ∧
      (tick maxTickClock).2.pulses =
        fired_pulses (tick maxTickClock).1 ++
          [⟨"__overflow__", 0, (0 + 1) % U64⟩]) ∧
    ((tick zeroClock).2.overflowed = false ∧
      (tick zeroClock).1.epoch = 0 ∧
      (tick zeroClock).2.pulses = fired_pulses (tick zeroClock).1) :=
  ⟨(tick_overflow_spec maxTickClock).1 rfl,
   (tick_overflow_spec zeroClock).2 (by decide)⟩

/-! ## C7 — tick counter monotonicity modulo `2^64` -/

/-- C7: a freshly built clock ticked `n` times has
`tick_count() == n mod 2^64`; each call advances the counter by exactly one
with defined wraparound. -/
theorem tick_count_mod (parts : List PartitionSpec) (pulses : List PulseSpec)
    (order : Option PartitionOrder) (c : Clock)
    (h : build parts pulses order = .ok c) (n : Nat) :
    tick_count (tickN c n) = n % U64 ∧
    tick_count (tickN c (n + 1)) = (tick_count (tickN c n) + 1) % U64 := by
  have hm1 : 1 < U64 := by norm_num [U64]
  have key : ∀ m, tick_count (tickN c m) = m % U64 := by
    intro m
    induction m with
    | zero =>
        have h0 := build_ok_spec parts pulses order c h
        simp [tickN, tick_count, h0]
    | succ m ih =>
        have step : tick_count (tickN c (m + 1)) =
            (tick_count (tickN c m) + 1) % U64 := rfl
        rw [step, ih, Nat.add_mod m 1 U64, Nat.mod_eq_of_lt hm1]
  exact ⟨key n, rfl⟩

/-- Partition specs of the standard `sec/min` clock. -/
def secMinParts : List PartitionSpec := [⟨"sec", 60⟩, ⟨"min", 60⟩]

/-- The clock a successful `build` of `secMinParts` under
least-significant-first order produces. -/
def secMinClock : Clock :=
  ⟨0, 0, [⟨"sec", 0, 60⟩, ⟨"min", 0, 60⟩], .LeastSignificantFirst, []⟩

/-- C7 witness: the `sec/min` clock ticked five times. -/
theorem tick_count_mod_witness :
    tick_count (tickN secMinClock 5) = 5 % U64 ∧
    tick_count (tickN secMinClock 6) = (tick_count (tickN secMinClock 5) + 1) % U64 :=
  tick_count_mod secMinParts [] (some .LeastSignificantFirst) secMinClock rfl 5

/-! ## C2 — cascade correctness -/

theorem tickN_partition_order (c : Clock) (n : Nat) :
    (tickN c n).partition_order = c.partition_order := by
  induction n with
  | zero => rfl
  | succ n ih => exact ih

/-- Mixed-radix formula for the `sec/min` clock: after `n` ticks the two
partition values are `n % 60` and `n / 60 % 60`. -/
theorem secMin_partitions_formula (n : Nat) :
    (tickN secMinClock n).partitions =
      [⟨"sec", n % 60, 60⟩, ⟨"min", n / 60 % 60, 60⟩] := by
  induction n with
  | zero => simp [tickN, secMinClock]
  | succ n ih =>
      have hstep : (tickN secMinClock (n + 1)).partitions =
          advance_partitions (tickN secMinClock n).partition_order
            (tickN secMinClock n).partitions := rfl
      rw [hstep, tickN_partition_order, ih]
      show cascade [⟨"sec", n % 60, 60⟩, ⟨"min", n / 60 % 60, 60⟩] = _
      simp only [cascade, PartitionState.increment]
      by_cases h1 : (60 : Nat) ≤ n % 60 + 1
      · simp only [if_pos h1]
        by_cases h2 : (60 : Nat) ≤ n / 60 % 60 + 1
        · simp only [if_pos h2]
          have e1 : (n + 1) % 60 = 0 := by omega
          have e2 : (n + 1) / 60 % 60 = 0 := by omega
          simp [e1, e2]
        · simp only [if_neg h2]
          have e1 : (n + 1) % 60 = 0 := by omega
          have e2 : (n + 1) / 60 % 60 = n / 60 % 60 + 1 := by omega
          simp [e1, e2]
      · simp only [if_neg h1]
        have e1 : (n + 1) % 60 = n % 60 + 1 := by omega
        have e2 : (n + 1) / 60 % 60 = n / 60 % 60 := by omega
        simp [e1, e2]

/-- C2: on a fresh `[sec:60, min:60]` clock under least-significant-first
order, the cascade gives `sec == n % 60` and `min == n / 60 % 60` after `n`
ticks; in particular after 60 ticks `sec == 0, min == 1` and after 3600
ticks `sec == 0, min == 0`.  Under most-significant-first order the same
carry loop is applied to the reversed partition list, so position 0 is
visited first under `LeastSignificantFirst` and the last position first
under `MostSignificantFirst`. -/
theorem cascade_sec_min (c : Clock)
    (h : build secMinParts [] (some .LeastSignificantFirst) = .ok c) :
    (∀ n, (tickN c n).snapshot.get "sec" = n % 60 ∧
          (tickN c n).snapshot.get "min" = n / 60 % 60) ∧
    ((tickN c 60).snapshot.get "sec" = 0 ∧
      (tickN c 60).snapshot.get "min" = 1) ∧
    ((tickN c 3600).snapshot.get "sec" = 0 ∧
      (tickN c 3600).snapshot.get "min" = 0) ∧
    (∀ ps, advance_partitions .LeastSignificantFirst ps = cascade ps ∧
      advance_partitions .MostSignificantFirst ps = (cascade ps.reverse).reverse) := by
  have hc : c = secMinClock := by
    have hspec := build_ok_spec _ _ _ _ h
    rw [hspec]; rfl
  subst hc
  have key : ∀ n, (tickN secMinClock n).snapshot.get "sec" = n % 60 ∧
      (tickN secMinClock n).snapshot.get "min" = n / 60 % 60 := by
    intro n
    have hparts := secMin_partitions_formula n
    constructor <;>
      simp [ClockSnapshot.get, ClockSnapshot.partition, Clock.snapshot, hparts,
        List.find?]
  refine ⟨key, ?_, ?_, fun ps => ⟨rfl, rfl⟩⟩
  · have h60 := key 60
    norm_num at h60
    exact h60
  · have h3600 := key 3600
    norm_num at h3600
    exact h3600

/-- C2 witness: the claim's own concrete instances on the freshly built
`sec/min` clock. -/
theorem cascade_sec_min_witness :
    ((tickN secMinClock 60).snapshot.get "sec" = 0 ∧
      (tickN secMinClock 60).snapshot.get "min" = 1) ∧
    ((tickN secMinClock 3600).snapshot.get "sec" = 0 ∧
      (tickN secMinClock 3600).snapshot.get "min" = 0) :=
  ⟨(cascade_sec_min secMinClock rfl).2.1, (cascade_sec_min secMinClock rfl).2.2.1⟩

/-! ## C6 — partition range invariant -/

/-- Invariant targeted by C6: every partition value is strictly below its
modulus (values are naturals, so `0 <= value` is inherent). -/
def PartitionsInv (c : Clock) : Prop :=
  ∀ p ∈ c.partitions, p.value < p.modulus

theorem increment_preserves_lt (p : PartitionState) (hp : p.value < p.modulus) :
    p.increment.1.value < p.increment.1.modulus := by
  simp only [PartitionState.increment]
  split <;> simp <;> omega

theorem cascade_preserves_lt (ps : List PartitionState)
    (h : ∀ p ∈ ps, p.value < p.modulus) :
    ∀ p ∈ cascade ps, p.value < p.modulus := by
  induction ps with
  | nil => simp [cascade]
  | cons q rest ih =>
      intro p hp
      have hq := h q (by simp)
      have hrest : ∀ p ∈ rest, p.value < p.modulus := fun p hp => h p (by simp [hp])
      have hq' := increment_preserves_lt q hq
      unfold cascade at hp
      rcases hinc : q.increment with ⟨q', carry⟩
      rw [hinc] at hp hq'
      cases carry with
      | true =>
          simp at hp
          rcases hp with rfl | hp
          · exact hq'
          · exact ih hrest p hp
      | false =>
          simp at hp
          rcases hp with rfl | hp
          · exact hq'
          · exact hrest p hp

theorem advance_preserves_lt (order : PartitionOrder) (ps : List PartitionState)
    (h : ∀ p ∈ ps, p.value < p.modulus) :
    ∀ p ∈ advance_partitions order ps, p.value < p.modulus := by
  cases order with
  | LeastSignificantFirst => exact cascade_preserves_lt ps h
  | MostSignificantFirst =>
      intro p hp
      simp only [advance_partitions, List.mem_reverse] at hp
      exact cascade_preserves_lt ps.reverse (by simpa using h) p hp

theorem tick_preserves_inv (c : Clock) (h : PartitionsInv c) :
    PartitionsInv (tick c).1 :=
  advance_preserves_lt c.partition_order c.partitions h

theorem build_ok_moduli_pos (parts : List PartitionSpec) (pulses : List PulseSpec)
    (order : Option PartitionOrder) (c : Clock)
    (h : build parts pulses order = .ok c) :
    ∀ p ∈ parts, 0 < p.modulus := by
  intro p hp
  rcases Nat.eq_zero_or_pos p.modulus with h0 | hpos
  · exfalso
    unfold build at h
    rcases hfind : parts.find? (fun q => q.modulus == 0) with _ | q
    · have := List.find?_eq_none.mp hfind p hp
      simp [h0] at this
    · rw [hfind] at h
      simp at h
  · exact hpos

/-- Shared helper: the range invariant holds on every state reachable from
a successful build. -/
theorem build_tickN_inv (parts : List PartitionSpec) (pulses : List PulseSpec)
    (order : Option PartitionOrder) (c : Clock)
    (h : build parts pulses order = .ok c) (n : Nat) :
    PartitionsInv (tickN c n) := by
  induction n with
  | zero =>
      have hspec := build_ok_spec _ _ _ _ h
      intro p hp
      rw [hspec] at hp
      simp only [tickN, List.mem_map] at hp
      obtain ⟨spec, hspec_mem, rfl⟩ := hp
      simpa using build_ok_moduli_pos _ _ _ _ h spec hspec_mem
  | succ n ih => exact tick_preserves_inv _ ih

/-- C6: on every successfully built clock, after any number of ticks every
partition satisfies `value < modulus`; moreover one `tick()` preserves the
invariant on any clock state, because partition values are mutated only
through the single increment primitive. -/
theorem partition_value_lt_modulus (parts : List PartitionSpec)
    (pulses : List PulseSpec) (order : Option PartitionOrder) (c : Clock)
    (h : build parts pulses order = .ok c) (n : Nat) :
    PartitionsInv (tickN c n) ∧
    ∀ d : Clock, PartitionsInv d → PartitionsInv (tick d).1 :=
  ⟨build_tickN_inv parts pulses order c h n, tick_preserves_inv⟩

/-- C6 witness: the `sec/min` clock after 100 ticks. -/
theorem partition_value_lt_modulus_witness :
    PartitionsInv (tickN secMinClock 100) :=
  (partition_value_lt_modulus secMinParts [] (some .LeastSignificantFirst)
    secMinClock rfl 100).1

/-! ## C1 — build validation -/

/-- C1 counterexample: the `ClockError` enumeration declared in the source
has no `DuplicatePartitionName` and no `DuplicatePulseName` variant, so no
`ClockError` value carries either tag and `build()` cannot return the
duplicate-name errors the claim lists. -/
theorem no_duplicate_name_errors :
    ¬ ∃ e : ClockError,
        e.tag = "DuplicatePartitionName" ∨ e.tag = "DuplicatePulseName" := by
  rintro ⟨e, h | h⟩ <;> cases e <;> simp [ClockError.tag] at h

mutual

theorem validate_condition_ok_iff (c : PulseCondition) (names : List String)
    (pn : String) :
    validate_condition c names pn = .ok () ↔ CondOK c names := by
  cases c with
  | Every period =>
      simp only [validate_condition, CondOK]
      split <;> simp_all
  | PartitionEquals name v =>
      simp only [validate_condition, CondOK]
      split <;> simp_all
  | PartitionModulo name m r =>
      simp only [validate_condition, CondOK]
      split
      · split <;> simp_all
      · simp_all
  | TickRange s e =>
      simp only [validate_condition, CondOK]
      split <;> simp_all
  | Not inner =>
      simpa only [validate_condition, CondOK] using
        validate_condition_ok_iff inner names pn
  | And cs =>
      simpa only [validate_condition, CondOK] using
        validate_condition_list_ok_iff cs names pn
  | Or cs =>
      simpa only [validate_condition, CondOK] using
        validate_condition_list_ok_iff cs names pn

theorem validate_condition_list_ok_iff (cs : List PulseCondition)
    (names : List String) (pn : String) :
    validate_condition_list cs names pn = .ok () ↔ CondListOK cs names := by
  cases cs with
  | nil => simp [validate_condition_list, CondListOK]
  | cons c rest =>
      simp only [validate_condition_list, CondListOK]
      rcases h : validate_condition c names pn with e | u
      · constructor
        · intro hc
          simp at hc
        · rintro ⟨h1, h2⟩
          rw [← validate_condition_ok_iff c names pn] at h1
          rw [h] at h1
          simp at h1
      · cases u
        rw [← validate_condition_ok_iff c names pn, h]
        simpa using validate_condition_list_ok_iff rest names pn

end

theorem validate_pulses_ok_iff (pulses : List PulseSpec) (names : List String) :
    validate_pulses pulses names = .ok () ↔
      ∀ pu ∈ pulses, CondOK pu.condition names := by
  induction pulses with
  | nil => simp [validate_pulses]
  | cons pu rest ih =>
      simp only [validate_pulses]
      rcases h : validate_condition pu.condition names pu.name with e | u
      · constructor
        · intro hc
          simp at hc
        · intro hall
          have h1 := (validate_condition_ok_iff pu.condition names pu.name).mpr
            (hall pu (by simp))
          rw [h] at h1
          simp at h1
      · cases u
        constructor
        · intro hrest p hp
          rcases List.mem_cons.mp hp with rfl | hp'
          · exact (validate_condition_ok_iff p.condition names p.name).mp h
          · exact (ih.mp hrest) p hp'
        · intro hall
          exact ih.mpr fun p hp => hall p (by simp [hp])

/-- C1 (amended): `build()` succeeds iff every registered partition has
`modulus > 0`, an order is selected whenever at least one partition is
registered, and every pulse condition is valid in the spec's sense (every
referenced partition exists, every `Every` period and `PartitionModulo`
modulus is nonzero, every `TickRange` has `start <= end`); on a violation
it returns the specific corresponding `ClockError`, whose enumeration
consists of `ZeroModulus`, `ZeroPeriod`, `ZeroConditionModulus`,
`UnknownPartition`, `InvalidTickRange` and `MissingPartitionOrder` only —
there are no duplicate-name variants.  The closed conjuncts exhibit each
error being returned at a concrete violating configuration. -/
theorem build_ok_iff (parts : List PartitionSpec) (pulses : List PulseSpec)
    (order : Option PartitionOrder) :
    ((∃ c, build parts pulses order = .ok c) ↔
      (∀ p ∈ parts, 0 < p.modulus) ∧
      (parts ≠ [] → order ≠ none) ∧
      (∀ pu ∈ pulses, CondOK pu.condition (parts.map fun p => p.name))) ∧
    build [⟨"a", 0⟩] [] (some .LeastSignificantFirst) =
      .error (.ZeroModulus "a") ∧
    build [⟨"a", 2⟩] [] none = .error .MissingPartitionOrder ∧
    build [⟨"a", 2⟩] [⟨"p", .Every 0⟩] (some .LeastSignificantFirst) =
      .error (.ZeroPeriod "p") ∧
    build [⟨"a", 2⟩] [⟨"p", .PartitionEquals "b" 0⟩]
        (some .LeastSignificantFirst) = .error (.UnknownPartition "p" "b") ∧
    build [⟨"a", 2⟩] [⟨"p", .PartitionModulo "a" 0 0⟩]
        (some .LeastSignificantFirst) =
      .error (.ZeroConditionModulus "p" "a") ∧
    build [⟨"a", 2⟩] [⟨"p", .TickRange 5 3⟩] (some .LeastSignificantFirst) =
      .error (.InvalidTickRange "p" 5 3) := by
  refine ⟨?_, rfl, rfl, rfl, rfl, rfl, rfl⟩
  constructor
  · rintro ⟨c, h⟩
    refine ⟨build_ok_moduli_pos _ _ _ _ h, ?_, ?_⟩
    · rintro hne rfl
      unfold build at h
      rcases hfind : parts.find? (fun q => q.modulus == 0) with _ | q
      · rw [hfind] at h
        have hne' : parts.isEmpty = false := by
          simpa [List.isEmpty_iff] using hne
        rw [if_pos (by simp [hne'])] at h
        simp at h
      · rw [hfind] at h
        simp at h
    · unfold build at h
      rcases hfind : parts.find? (fun q => q.modulus == 0) with _ | q
      · rw [hfind] at h
        rcases hval : validate_pulses pulses (parts.map fun p => p.name)
          with e | u
        · rw [hval] at h
          exfalso
          revert h
          split <;> simp
          split <;> simp
        · cases u
          exact (validate_pulses_ok_iff _ _).mp hval
      · rw [hfind] at h
        simp at h
  · rintro ⟨h1, h2, h3⟩
    have hfind : parts.find? (fun q => q.modulus == 0) = none := by
      rw [List.find?_eq_none]
      intro p hp
      simpa using Nat.pos_iff_ne_zero.mp (h1 p hp)
    have hcond : (!parts.isEmpty && order.isNone) = false := by
      rcases hparts : parts with _ | ⟨p, rest⟩
      · simp
      · have : order ≠ none := h2 (by simp [hparts])
        rcases order with _ | o
        · exact absurd rfl this
        · simp
    have hval : validate_pulses pulses (parts.map fun p => p.name) = .ok () :=
      (validate_pulses_ok_iff _ _).mpr h3
    refine ⟨{ tick := 0, epoch := 0,
              partitions := parts.map (fun p => ⟨p.name, 0, p.modulus⟩),
              partition_order := order.getD .LeastSignificantFirst,
              pulses := pulses }, ?_⟩
    unfold build
    rw [hfind]
    simp only [hcond, Bool.false_eq_true, if_false, hval]

/-! ## C8 — bridge condition literals -/

/-- C8: the source's `parse_condition` rejects the grammar's
`partition_modulo` and `tick_range` literals through its catch-all
unknown-discriminator arm, while the other five literal forms parse to the
corresponding native conditions — contradicting the repository's own
documentation, which lists all seven predicate forms as supported by the
bridge. -/
theorem parse_condition_missing_variants :
    parse_condition (.partition_modulo "min" 15 0) =
      .error "unknown condition type" ∧
    parse_condition (.tick_range 0 100) = .error "unknown condition type" ∧
    parse_condition (.every 5) = .ok (.Every 5) ∧
    parse_condition (.partition_equals "sec" 0) =
      .ok (.PartitionEquals "sec" 0) ∧
    parse_condition (.not (.every 2)) = .ok (.Not (.Every 2)) ∧
    parse_condition (.and [.every 2, .partition_equals "sec" 0]) =
      .ok (.And [.Every 2, .PartitionEquals "sec" 0]) ∧
    parse_condition (.or [.every 2]) = .ok (.Or [.Every 2]) :=
  ⟨rfl, rfl, rfl, rfl, rfl, rfl, rfl⟩

/-! ## C9 — zero-copy path refines the rich path -/

theorem lo_hi_decode (x : Nat) (hx : x < U64) :
    decode_u64 (lo32 x) (hi32 x) = x := by
  have h32 : (0 : Nat) < 2 ^ 32 := by positivity
  have hdiv : x / 2 ^ 32 < 2 ^ 32 := by
    rw [Nat.div_lt_iff_lt_mul h32]
    calc x < U64 := hx
    _ = 2 ^ 32 * 2 ^ 32 := by norm_num [U64]
  unfold decode_u64 lo32 hi32
  rw [Nat.mod_eq_of_lt hdiv]
  exact Nat.mod_add_div x (2 ^ 32)

theorem decode_words_pairs (ps : List PartitionState) (f : PartitionState → Nat)
    (hf : ∀ p ∈ ps, f p < U64) :
    decode_words (ps.flatMap fun p => [lo32 (f p), hi32 (f p)]) = ps.map f := by
  induction ps with
  | nil => rfl
  | cons p rest ih =>
      simp only [List.flatMap_cons, List.cons_append, List.nil_append,
        List.map_cons]
      rw [show decode_words (lo32 (f p) :: hi32 (f p) ::
            (rest.flatMap fun q => [lo32 (f q), hi32 (f q)])) =
          decode_u64 (lo32 (f p)) (hi32 (f p)) ::
            decode_words (rest.flatMap fun q => [lo32 (f q), hi32 (f q)])
        from rfl]
      rw [lo_hi_decode (f p) (hf p (by simp)),
        ih (fun q hq => hf q (by simp [hq]))]

theorem increment_shape (p : PartitionState) :
    p.increment.1.name = p.name ∧ p.increment.1.modulus = p.modulus := by
  simp only [PartitionState.increment]
  split <;> simp

theorem cascade_shape (ps : List PartitionState) :
    (cascade ps).map (fun p => (p.name, p.modulus)) =
      ps.map (fun p => (p.name, p.modulus)) := by
  induction ps with
  | nil => rfl
  | cons p rest ih =>
      unfold cascade
      rcases h : p.increment with ⟨p', carry⟩
      have hs := increment_shape p
      rw [h] at hs
      simp only at hs
      cases carry <;> simp [hs.1, hs.2, ih]

theorem advance_shape (order : PartitionOrder) (ps : List PartitionState) :
    (advance_partitions order ps).map (fun p => (p.name, p.modulus)) =
      ps.map (fun p => (p.name, p.modulus)) := by
  cases order with
  | LeastSignificantFirst => exact cascade_shape ps
  | MostSignificantFirst =>
      simp only [advance_partitions]
      rw [List.map_reverse, cascade_shape, ← List.map_reverse,
        List.reverse_reverse]

theorem tickN_shape (c : Clock) (n : Nat) :
    (tickN c n).partitions.map (fun p => (p.name, p.modulus)) =
      c.partitions.map (fun p => (p.name, p.modulus)) := by
  induction n with
  | zero => rfl
  | succ n ih =>
      have hstep : (tickN c (n + 1)).partitions =
          advance_partitions (tickN c n).partition_order
            (tickN c n).partitions := rfl
      rw [hstep, advance_shape, ih]

theorem tick_tick_lt (x : Clock) : (tick x).1.tick < U64 := by
  show (x.tick + 1) % U64 < U64
  exact Nat.mod_lt _ (by norm_num [U64])

theorem tick_epoch_lt (x : Clock) (h : x.epoch < U64) :
    (tick x).1.epoch < U64 := by
  show (if decide (U64 ≤ x.tick + 1) then (x.epoch + 1) % U64 else x.epoch) < U64
  split
  · exact Nat.mod_lt _ (by norm_num [U64])
  · exact h

theorem tickN_epoch_lt (c : Clock) (h : c.epoch < U64) (n : Nat) :
    (tickN c n).epoch < U64 := by
  induction n with
  | zero => exact h
  | succ n ih => exact tick_epoch_lt _ ih

theorem tickN_moduli_lt (parts : List PartitionSpec) (pulses : List PulseSpec)
    (order : Option PartitionOrder) (c : Clock)
    (hb : build parts pulses order = .ok c)
    (hm : ∀ p ∈ parts, p.modulus < U64) (n : Nat) :
    ∀ p ∈ (tickN c n).partitions, p.modulus < U64 := by
  intro p hp
  have hmem : (p.name, p.modulus) ∈
      (tickN c n).partitions.map (fun q => (q.name, q.modulus)) :=
    List.mem_map_of_mem _ hp
  rw [tickN_shape] at hmem
  obtain ⟨q, hq, heq⟩ := List.mem_map.mp hmem
  have hmod : q.modulus = p.modulus := congrArg Prod.snd heq
  have hcs := build_ok_spec _ _ _ _ hb
  rw [hcs] at hq
  simp only [List.mem_map] at hq
  obtain ⟨spec, hspec, rfl⟩ := hq
  simp only at hmod
  rw [← hmod]
  exact hm spec hspec

theorem fired_names_zip (ps : List PulseSpec) (t e : Nat) (s : ClockSnapshot)
    (tail : List Bool) :
    ((ps.filterMap fun pu =>
        if is_met pu.condition t s then
          some (⟨pu.name, t, e⟩ : PulseFired)
        else none).map fun f => f.name) =
      ((ps.zip ((ps.map fun pu => is_met pu.condition t s) ++ tail)).filter
          fun x => x.2).map fun x => x.1.name := by
  induction ps with
  | nil => rfl
  | cons pu rest ih =>
      simp only [List.filterMap_cons, List.map_cons, List.cons_append,
        List.zip_cons_cons, List.filter_cons]
      by_cases h : is_met pu.condition t s
      · simp [h, ih]
      · simp [h, ih]

theorem tickRawN_clock (c : Clock) (b : Bool) (n : Nat) :
    (tickRawN ⟨c, b⟩ n).clock = tickN c n := by
  induction n with
  | zero => rfl
  | succ n ih =>
      show (tick (tickRawN ⟨c, b⟩ n).clock).1 = (tick (tickN c n)).1
      rw [ih]

/-- Rich-path outcome of the `(n+1)`-st tick. -/
def richOutcomeN (c : Clock) (n : Nat) : TickOutcome := (tick (tickN c n)).2

/-- Raw-path result of the `(n+1)`-st `tick_raw`, starting from a fresh
wrapper around `c`. -/
def rawStepN (c : Clock) (n : Nat) : WasmClock × List Nat × List Bool :=
  tick_raw (tickRawN ⟨c, false⟩ n)

/-- C9: driving two identically built clocks in lockstep, one through the
rich `TickOutcome` path and one through `tick_raw` into raw buffers, the
clock states stay equal on every step, and on each step the raw buffers
agree field-for-field with the rich outcome: words 0-1 decode to the
snapshot tick, words 2-3 to the epoch, word 4 is the overflow flag, word 5
the partition count, the following (low, high) pairs decode to the
partition values in order, `partition_moduli_raw` decodes to the moduli in
partition order, the bitset's one reserved final bit equals `overflowed`,
and the set bits name exactly the fired user pulses followed by the
overflow pulse when present. -/
theorem raw_path_agrees_with_rich (parts : List PartitionSpec)
    (pulses : List PulseSpec) (order : Option PartitionOrder) (c : Clock)
    (hb : build parts pulses order = .ok c)
    (hm : ∀ p ∈ parts, p.modulus < U64) (n : Nat) :
    (tickRawN ⟨c, false⟩ n).clock = tickN c n ∧
    decode_u64 ((rawStepN c n).2.1.getD 0 0) ((rawStepN c n).2.1.getD 1 0) =
      (richOutcomeN c n).snapshot.tick ∧
    decode_u64 ((rawStepN c n).2.1.getD 2 0) ((rawStepN c n).2.1.getD 3 0) =
      (richOutcomeN c n).snapshot.epoch ∧
    (rawStepN c n).2.1.getD 4 0 =
      (if (richOutcomeN c n).overflowed then 1 else 0) ∧
    (rawStepN c n).2.1.getD 5 0 =
      (richOutcomeN c n).snapshot.partitions.length ∧
    decode_words ((rawStepN c n).2.1.drop 6) =
      (richOutcomeN c n).snapshot.partitions.map (fun p => p.value) ∧
    decode_words (partition_moduli_raw (rawStepN c n).1) =
      c.partitions.map (fun p => p.modulus) ∧
    (rawStepN c n).2.2.getLast? = some (richOutcomeN c n).overflowed ∧
    (richOutcomeN c n).pulses.map (fun f => f.name) =
      ((((rawStepN c n).1.clock.pulses.zip (rawStepN c n).2.2).filter
          fun x => x.2).map fun x => x.1.name) ++
        (if (richOutcomeN c n).overflowed then ["__overflow__"] else []) := by
  have hlock := tickRawN_clock c false n
  have hepoch0 : c.epoch = 0 := by rw [build_ok_spec _ _ _ _ hb]
  have hepoch : (tick (tickN c n)).1.epoch < U64 :=
    tick_epoch_lt _ (tickN_epoch_lt c (by rw [hepoch0]; norm_num [U64]) n)
  have hinv : ∀ p ∈ (tick (tickN c n)).1.partitions, p.value < p.modulus :=
    build_tickN_inv parts pulses order c hb (n + 1)
  have hmodlt : ∀ p ∈ (tick (tickN c n)).1.partitions, p.modulus < U64 :=
    tickN_moduli_lt parts pulses order c hb hm (n + 1)
  have hvallt : ∀ p ∈ (tick (tickN c n)).1.partitions, p.value < U64 :=
    fun p hp => lt_trans (hinv p hp) (hmodlt p hp)
  refine ⟨hlock, ?_, ?_, ?_, ?_, ?_, ?_, ?_, ?_⟩
  · show decode_u64 (lo32 (tick (tickRawN ⟨c, false⟩ n).clock).1.tick)
        (hi32 (tick (tickRawN ⟨c, false⟩ n).clock).1.tick) =
      (tick (tickN c n)).1.tick
    rw [hlock]
    exact lo_hi_decode _ (tick_tick_lt _)
  · show decode_u64 (lo32 (tick (tickRawN ⟨c, false⟩ n).clock).1.epoch)
        (hi32 (tick (tickRawN ⟨c, false⟩ n).clock).1.epoch) =
      (tick (tickN c n)).1.epoch
    rw [hlock]
    exact lo_hi_decode _ hepoch
  · show (if (tick (tickRawN ⟨c, false⟩ n).clock).2.overflowed then 1 else 0) =
      (if (tick (tickN c n)).2.overflowed then 1 else 0)
    rw [hlock]
  · show (tick (tickRawN ⟨c, false⟩ n).clock).1.partitions.length =
      (tick (tickN c n)).1.partitions.length
    rw [hlock]
  · show decode_words
        ((tick (tickRawN ⟨c, false⟩ n).clock).1.partitions.flatMap
          fun p => [lo32 p.value, hi32 p.value]) =
      (tick (tickN c n)).1.partitions.map (fun p => p.value)
    rw [hlock]
    exact decode_words_pairs _ _ hvallt
  · show decode_words
        ((tick (tickRawN ⟨c, false⟩ n).clock).1.partitions.flatMap
          fun p => [lo32 p.modulus, hi32 p.modulus]) =
      c.partitions.map (fun p => p.modulus)
    rw [hlock]
    rw [decode_words_pairs _ _ hmodlt]
    have hshape := congrArg (fun l => l.map Prod.snd) (tickN_shape c (n + 1))
    simp only [List.map_map] at hshape
    exact hshape
  · show ((tick (tickRawN ⟨c, false⟩ n).clock).1.pulses.map
        (fun pu => is_met pu.condition (tick (tickRawN ⟨c, false⟩ n).clock).1.tick
          (tick (tickRawN ⟨c, false⟩ n).clock).1.snapshot) ++
        [(tick (tickRawN ⟨c, false⟩ n).clock).2.overflowed]).getLast? =
      some (tick (tickN c n)).2.overflowed
    rw [hlock]
    exact List.getLast?_concat _
  · rw [show (rawStepN c n).1.clock = (tick (tickRawN ⟨c, false⟩ n).clock).1
      from rfl]
    rw [show (rawStepN c n).2.2 =
        (tick (tickRawN ⟨c, false⟩ n).clock).1.pulses.map
          (fun pu => is_met pu.condition
            (tick (tickRawN ⟨c, false⟩ n).clock).1.tick
            (tick (tickRawN ⟨c, false⟩ n).clock).1.snapshot) ++
          [(tick (tickRawN ⟨c, false⟩ n).clock).2.overflowed] from rfl]
    rw [hlock]
    have hovf : (tick (tickN c n)).2.overflowed =
        decide (U64 ≤ (tickN c n).tick + 1) := rfl
    have hpul : (tick (tickN c n)).2.pulses =
        (if decide (U64 ≤ (tickN c n).tick + 1) then
          fired_pulses (tick (tickN c n)).1 ++
            [⟨"__overflow__", (tick (tickN c n)).1.tick,
              (tick (tickN c n)).1.epoch⟩]
        else fired_pulses (tick (tickN c n)).1) := rfl
    have hfired : fired_pulses (tick (tickN c n)).1 =
        (tick (tickN c n)).1.pulses.filterMap
          (fun pu => if is_met pu.condition (tick (tickN c n)).1.tick
              (tick (tickN c n)).1.snapshot then
            some ⟨pu.name, (tick (tickN c n)).1.tick,
              (tick (tickN c n)).1.epoch⟩
          else none) := rfl
    rw [show (richOutcomeN c n).pulses = (tick (tickN c n)).2.pulses from rfl,
      show (richOutcomeN c n).overflowed = (tick (tickN c n)).2.overflowed
        from rfl]
    rw [hpul, hovf]
    cases hdec : decide (U64 ≤ (tickN c n).tick + 1) with
    | false =>
        simp only [Bool.false_eq_true, if_false]
        rw [hfired, fired_names_zip _ _ _ _ [false], List.append_nil]
    | true =>
        simp only [if_true]
        rw [List.map_append, hfired, fired_names_zip _ _ _ _ [true]]
        rfl

/-- Partition specs of the one-partition demo clock used as the C9 witness. -/
def rawDemoParts : List PartitionSpec := [⟨"sec", 3⟩]

/-- Pulses of the demo clock used as the C9 witness. -/
def rawDemoPulses : List PulseSpec := [⟨"p", .Every 2⟩]

/-- The clock a successful `build` of the demo configuration produces. -/
def rawDemoClock : Clock :=
  ⟨0, 0, [⟨"sec", 0, 3⟩], .LeastSignificantFirst, [⟨"p", .Every 2⟩]⟩

/-- C9 witness: the demo clock driven one step along both paths. -/
theorem raw_path_agrees_with_rich_witness :
    (tickRawN ⟨rawDemoClock, false⟩ 1).clock = tickN rawDemoClock 1 ∧
    decode_u64 ((rawStepN rawDemoClock 1).2.1.getD 0 0)
        ((rawStepN rawDemoClock 1).2.1.getD 1 0) =
      (richOutcomeN rawDemoClock 1).snapshot.tick ∧
    decode_u64 ((rawStepN rawDemoClock 1).2.1.getD 2 0)
        ((rawStepN rawDemoClock 1).2.1.getD 3 0) =
      (richOutcomeN rawDemoClock 1).snapshot.epoch ∧
    (rawStepN rawDemoClock 1).2.1.getD 4 0 =
      (if (richOutcomeN rawDemoClock 1).overflowed then 1 else 0) ∧
    (rawStepN rawDemoClock 1).2.1.getD 5 0 =
      (richOutcomeN rawDemoClock 1).snapshot.partitions.length ∧
    decode_words ((rawStepN rawDemoClock 1).2.1.drop 6) =
      (richOutcomeN rawDemoClock 1).snapshot.partitions.map (fun p => p.value) ∧
    decode_words (partition_moduli_raw (rawStepN rawDemoClock 1).1) =
      rawDemoClock.partitions.map (fun p => p.modulus) ∧
    (rawStepN rawDemoClock 1).2.2.getLast? =
      some (richOutcomeN rawDemoClock 1).overflowed ∧
    (richOutcomeN rawDemoClock 1).pulses.map (fun f => f.name) =
      ((((rawStepN rawDemoClock 1).1.clock.pulses.zip
          (rawStepN rawDemoClock 1).2.2).filter fun x => x.2).map
        fun x => x.1.name) ++
        (if (richOutcomeN rawDemoClock 1).overflowed then ["__overflow__"]
          else []) :=
  raw_path_agrees_with_rich rawDemoParts rawDemoPulses
    (some .LeastSignificantFirst) rawDemoClock rfl (by decide) 1

end BeeClock
